import Mathlib

/-!
Shallow embedding of the audit-execution-and-caching pipeline of
`src/utils/lighthouse.ts` (seo-lighthouse), together with theorems settling
the specification claims about it.

String-processing helpers work on `List Char`; `String` wrappers are provided
at the boundary.  Machine-level effects (filesystem, DNS, child processes)
are modelled by an explicit environment record plus an event trace.
-/

namespace SeoLH

/-- JavaScript whitespace recognised by `String.prototype.trim` (the common
code points; exotic Unicode spaces are omitted from the model). -/
def isJsWs (c : Char) : Bool :=
  c = ' ' || c = '\t' || c = '\n' || c = '\r' || c = '\x0b' || c = '\x0c' || c = '\u00A0'

/-- Model of `String.prototype.trim`: drop whitespace from both ends. -/
def trimList (l : List Char) : List Char :=
  ((l.dropWhile isJsWs).reverse.dropWhile isJsWs).reverse

/-- ASCII lowercasing of one character (what the `/i` regex flag needs here). -/
def asciiLowerChar (c : Char) : Char :=
  if 'A' ≤ c ∧ c ≤ 'Z' then Char.ofNat (c.toNat + 32) else c

/-- `isPrefixB pat l` decides whether `pat` is a prefix of `l`. -/
def isPrefixB : List Char → List Char → Bool
  | [], _ => true
  | _ :: _, [] => false
  | a :: as, b :: bs => a = b && isPrefixB as bs

/-- The characters of `"https://"`. -/
def httpsChars : List Char := ['h', 't', 't', 'p', 's', ':', '/', '/']

/-- The characters of `"http://"`. -/
def httpChars : List Char := ['h', 't', 't', 'p', ':', '/', '/']

/-- The characters of `"www."`. -/
def wwwChars : List Char := ['w', 'w', 'w', '.']

/-- Model of the regex test `/^https?:\/\//i.test(url)`. -/
def hasHttpSchemeL (l : List Char) : Bool :=
  isPrefixB httpChars (l.map asciiLowerChar) || isPrefixB httpsChars (l.map asciiLowerChar)

/-- Model of `url.replace(/^www\./i, '')`. -/
def stripWwwL (l : List Char) : List Char :=
  if isPrefixB wwwChars (l.map asciiLowerChar) then l.drop 4 else l

/-- `processUrl` from `lighthouse.ts`, on character lists: trim, keep an
explicit `http(s)` scheme, otherwise strip a leading `www.` and prepend
`https://`. -/
def processUrlL (l : List Char) : List Char :=
  let u := trimList l
  if hasHttpSchemeL u then u else httpsChars ++ stripWwwL u

/-- `processUrl` from `lighthouse.ts`. -/
def processUrl (s : String) : String := ⟨processUrlL s.data⟩

/-! ### MD5 (model of `crypto.createHash('md5')`)

Words are `Nat`s reduced modulo `2 ^ 32` explicitly. -/

/-- Truncate to a 32-bit word. -/
def u32 (n : Nat) : Nat := n % 4294967296

/-- 32-bit left rotation (input assumed `< 2 ^ 32`). -/
def rotl32 (x n : Nat) : Nat := u32 ((x <<< n) ||| (x >>> (32 - n)))

/-- The 64 MD5 sine-derived constants. -/
def md5K : List Nat :=
  [0xd76aa478, 0xe8c7b756, 0x242070db, 0xc1bdceee,
   0xf57c0faf, 0x4787c62a, 0xa8304613, 0xfd469501,
   0x698098d8, 0x8b44f7af, 0xffff5bb1, 0x895cd7be,
   0x6b901122, 0xfd987193, 0xa679438e, 0x49b40821,
   0xf61e2562, 0xc040b340, 0x265e5a51, 0xe9b6c7aa,
   0xd62f105d, 0x02441453, 0xd8a1e681, 0xe7d3fbc8,
   0x21e1cde6, 0xc33707d6, 0xf4d50d87, 0x455a14ed,
   0xa9e3e905, 0xfcefa3f8, 0x676f02d9, 0x8d2a4c8a,
   0xfffa3942, 0x8771f681, 0x6d9d6122, 0xfde5380c,
   0xa4beea44, 0x4bdecfa9, 0xf6bb4b60, 0xbebfbc70,
   0x289b7ec6, 0xeaa127fa, 0xd4ef3085, 0x04881d05,
   0xd9d4d039, 0xe6db99e5, 0x1fa27cf8, 0xc4ac5665,
   0xf4292244, 0x432aff97, 0xab9423a7, 0xfc93a039,
   0x655b59c3, 0x8f0ccc92, 0xffeff47d, 0x85845dd1,
   0x6fa87e4f, 0xfe2ce6e0, 0xa3014314, 0x4e0811a1,
   0xf7537e82, 0xbd3af235, 0x2ad7d2bb, 0xeb86d391]

/-- The 64 per-round rotation amounts. -/
def md5S : List Nat :=
  [7, 12, 17, 22, 7, 12, 17, 22, 7, 12, 17, 22, 7, 12, 17, 22,
   5, 9, 14, 20, 5, 9, 14, 20, 5, 9, 14, 20, 5, 9, 14, 20,
   4, 11, 16, 23, 4, 11, 16, 23, 4, 11, 16, 23, 4, 11, 16, 23,
   6, 10, 15, 21, 6, 10, 15, 21, 6, 10, 15, 21, 6, 10, 15, 21]

/-- Round function of step `i`. -/
def md5F (i b c d : Nat) : Nat :=
  if i < 16 then (b &&& c) ||| ((0xffffffff ^^^ b) &&& d)
  else if i < 32 then (d &&& b) ||| ((0xffffffff ^^^ d) &&& c)
  else if i < 48 then b ^^^ c ^^^ d
  else c ^^^ (b ||| (0xffffffff ^^^ d))

/-- Message-word index used at step `i`. -/
def md5G (i : Nat) : Nat :=
  if i < 16 then i
  else if i < 32 then (5 * i + 1) % 16
  else if i < 48 then (3 * i + 5) % 16
  else (7 * i) % 16

/-- One MD5 step on the state `(a, b, c, d)` with message words `M`. -/
def md5Step (M : List Nat) (st : Nat × Nat × Nat × Nat) (i : Nat) :
    Nat × Nat × Nat × Nat :=
  let a := st.1
  let b := st.2.1
  let c := st.2.2.1
  let d := st.2.2.2
  let f := u32 (md5F i b c d + a + md5K.getD i 0 + M.getD (md5G i) 0)
  (d, u32 (b + rotl32 f (md5S.getD i 0)), b, c)

/-- Process one 16-word block. -/
def md5Block (st : Nat × Nat × Nat × Nat) (M : List Nat) : Nat × Nat × Nat × Nat :=
  let r := (List.range 64).foldl (md5Step M) st
  (u32 (st.1 + r.1), u32 (st.2.1 + r.2.1), u32 (st.2.2.1 + r.2.2.1),
   u32 (st.2.2.2 + r.2.2.2))

/-- Little-endian bytes of groups of four → 32-bit words. -/
def toWords : List Nat → List Nat
  | b0 :: b1 :: b2 :: b3 :: rest =>
    (b0 + 256 * b1 + 65536 * b2 + 16777216 * b3) :: toWords rest
  | _ => []

/-- Split a byte list into chunks of 64 (fuel-based so that it reduces). -/
def chunk64Aux : Nat → List Nat → List (List Nat)
  | 0, _ => []
  | fuel + 1, bs => if bs = [] then [] else bs.take 64 :: chunk64Aux fuel (bs.drop 64)

/-- Split a byte list into chunks of 64. -/
def chunk64 (bs : List Nat) : List (List Nat) := chunk64Aux bs.length bs

/-- `k` little-endian bytes of `n`. -/
def leBytes : Nat → Nat → List Nat
  | 0, _ => []
  | k + 1, n => (n % 256) :: leBytes k (n / 256)

/-- MD5 padding: `0x80`, zeros to 56 mod 64, then the 64-bit bit length. -/
def md5Pad (msg : List Nat) : List Nat :=
  let len := msg.length
  let zeros := (64 + 56 - (len + 1) % 64) % 64
  msg ++ [0x80] ++ List.replicate zeros 0 ++ leBytes 8 ((8 * len) % 18446744073709551616)

/-- Lowercase hex digit. -/
def hexDigit (n : Nat) : Char :=
  if n < 10 then Char.ofNat (48 + n) else Char.ofNat (87 + n)

/-- Two-character hex rendering of a byte. -/
def byteHex (b : Nat) : List Char := [hexDigit (b / 16), hexDigit (b % 16)]

/-- Hex rendering of a word, little-endian byte order (as MD5 prescribes). -/
def wordLEHex (w : Nat) : List Char := (leBytes 4 w).flatMap byteHex

/-- MD5 digest of a byte list, as the usual 32-character lowercase hex string. -/
def md5Hex (msg : List Nat) : String :=
  let blocks := (chunk64 (md5Pad msg)).map toWords
  let r := blocks.foldl md5Block (0x67452301, 0xefcdab89, 0x98badcfe, 0x10325476)
  ⟨wordLEHex r.1 ++ wordLEHex r.2.1 ++ wordLEHex r.2.2.1 ++ wordLEHex r.2.2.2⟩

/-! ### JSON string serialization and JS array sort
(models of `JSON.stringify` on the key object and of `Array.prototype.sort`) -/

/-- UTF-8 bytes of one character (model of Node's utf-8 encoding of strings). -/
def utf8Bytes (c : Char) : List Nat :=
  let n := c.toNat
  if n < 0x80 then [n]
  else if n < 0x800 then [0xc0 + n / 64, 0x80 + n % 64]
  else if n < 0x10000 then [0xe0 + n / 4096, 0x80 + (n / 64) % 64, 0x80 + n % 64]
  else [0xf0 + n / 262144, 0x80 + (n / 4096) % 64, 0x80 + (n / 64) % 64, 0x80 + n % 64]

/-- UTF-8 bytes of a string. -/
def strBytes (s : String) : List Nat := s.data.flatMap utf8Bytes

/-- `JSON.stringify` escaping of one character (the backslash escapes and
control-character escapes; lone surrogates cannot occur in `Char`). -/
def jsonEscapeChar (c : Char) : List Char :=
  if c = '"' then ['\\', '"']
  else if c = '\\' then ['\\', '\\']
  else if c = '\x08' then ['\\', 'b']
  else if c = '\x0c' then ['\\', 'f']
  else if c = '\n' then ['\\', 'n']
  else if c = '\r' then ['\\', 'r']
  else if c = '\t' then ['\\', 't']
  else if c.toNat < 32 then
    ['\\', 'u', '0', '0', hexDigit (c.toNat / 16), hexDigit (c.toNat % 16)]
  else [c]

/-- `JSON.stringify` of a string value. -/
def jsonQuote (s : String) : String := ⟨'"' :: s.data.flatMap jsonEscapeChar ++ ['"']⟩

/-- UTF-16 code units of one character. -/
def utf16Units (c : Char) : List Nat :=
  let n := c.toNat
  if n < 0x10000 then [n]
  else [0xd800 + (n - 0x10000) / 1024, 0xdc00 + (n - 0x10000) % 1024]

/-- UTF-16 code units of a string (what JS string comparison looks at). -/
def strUnits (s : String) : List Nat := s.data.flatMap utf16Units

/-- Lexicographic `≤` on code-unit lists. -/
def unitsLe : List Nat → List Nat → Bool
  | [], _ => true
  | _ :: _, [] => false
  | a :: as, b :: bs => if a < b then true else if b < a then false else unitsLe as bs

/-- The default JS string ordering: lexicographic on UTF-16 code units. -/
def jsLe (a b : String) : Prop := unitsLe (strUnits a) (strUnits b) = true

instance : DecidableRel jsLe := fun a b => by unfold jsLe; infer_instance

/-- Model of `Array.prototype.sort()` on string arrays. -/
def jsSort (l : List String) : List String := List.insertionSort jsLe l

/-- `JSON.stringify({ url, device, categories: categories.sort() })` as built
by `generateCacheKey` (insertion order of the object literal preserved). -/
def serializeKeyData (url device : String) (categories : List String) : String :=
  "\x7b\"url\":" ++ jsonQuote url ++ ",\"device\":" ++ jsonQuote device ++
    ",\"categories\":[" ++
    String.intercalate "," ((jsSort categories).map jsonQuote) ++ "]\x7d"

/-- `generateCacheKey` from `lighthouse.ts`: the MD5 hex digest of the
deterministic serialization of (url, device, sorted categories).  In
`runLighthouseAudit` it is always called with all three fields present. -/
def generateCacheKey (url device : String) (categories : List String) : String :=
  md5Hex (strBytes (serializeKeyData url device categories))

/-! ### URL parsing (model of the WHATWG `new URL` constructor)

Only the fragment of the parser this program can reach is modelled: the
strings given to `new URL` always carry an explicit scheme, and when the
scheme is `http(s)` they always contain `//` (both guaranteed by
`processUrl`), so the slash-less special-scheme quirk is out of scope. -/

/-- First character allowed in a URL scheme. -/
def isSchemeStart (c : Char) : Bool :=
  ('a' ≤ c && c ≤ 'z') || ('A' ≤ c && c ≤ 'Z')

/-- Subsequent characters allowed in a URL scheme. -/
def isSchemeChar (c : Char) : Bool :=
  isSchemeStart c || ('0' ≤ c && c ≤ '9') || c = '+' || c = '-' || c = '.'

/-- Code points that make a hostname invalid. -/
def hostForbidden (c : Char) : Bool :=
  c = ' ' || c = '\t' || c = '\n' || c = '\r' || c = '#' || c = '/' || c = '?' ||
    c = ':' || c = '<' || c = '>' || c = '\\' || c = '^' || c = '|' ||
    c = '[' || c = ']' || c = '"'

/-- The part of an authority after its last `@` (userinfo stripped). -/
def afterLastAt (l : List Char) : List Char :=
  (l.reverse.takeWhile (· ≠ '@')).reverse

/-- Decimal value of a digit list (used for the port bound check). -/
def digitsToNat (l : List Char) : Nat :=
  l.foldl (fun acc c => 10 * acc + (c.toNat - 48)) 0

/-- Parse a URL, returning its hostname on success (`new URL(s).hostname`),
`none` when the constructor would throw. -/
def parseUrlHost (s : String) : Option String :=
  let l := s.data
  let sch := l.takeWhile isSchemeChar
  match l.drop sch.length with
  | ':' :: r =>
    if sch.head?.elim true (fun c => isSchemeStart c = false) then none
    else
      let schemeLower := sch.map asciiLowerChar
      if schemeLower = ['h', 't', 't', 'p'] ∨
          schemeLower = ['h', 't', 't', 'p', 's'] then
        if isPrefixB ['/', '/'] r then
          let auth := (r.drop 2).takeWhile fun c => c ≠ '/' && c ≠ '?' && c ≠ '#'
          let hostport := afterLastAt auth
          let host := hostport.takeWhile (· ≠ ':')
          if host.isEmpty || host.any hostForbidden then none
          else if host.length = hostport.length then some ⟨host.map asciiLowerChar⟩
          else
            let port := hostport.drop (host.length + 1)
            if port.all (fun c => '0' ≤ c && c ≤ '9') &&
                (port.isEmpty || digitsToNat port ≤ 65535) then
              some ⟨host.map asciiLowerChar⟩
            else none
        else none
      else some ""
  | _ => none

/-- `isValidUrl` from `lighthouse.ts`: `new URL(url)` does not throw. -/
def isValidUrl (s : String) : Bool := (parseUrlHost s).isSome

/-- `new URL(s).hostname` (callers only use it after `isValidUrl` passed). -/
def urlHostname (s : String) : String := (parseUrlHost s).getD ""

/-! ### Filesystem paths and the executable locator -/

/-- Simplified model of `path.join` for one separator (duplicate-slash
normalization is not needed by any claim). -/
def nodePathJoin (a b : String) : String :=
  if b = "" then a
  else if a.data.getLast? = some '/' || b.data.head? = some '/' then a ++ b
  else a ++ "/" ++ b

/-- `expandHomeDir` from `lighthouse.ts`; `homedir` (= `os.homedir()`) is
threaded explicitly. -/
def expandHomeDir (homedir filePath : String) : String :=
  if filePath.data.head? = some '~' then nodePathJoin homedir ⟨filePath.data.drop 1⟩
  else filePath

/-- `String.prototype.trim`. -/
def jsTrim (s : String) : String := ⟨trimList s.data⟩

/-- The report payload is opaque to the pipeline; it is modelled as the raw
text it was parsed from. -/
abbrev Report := String

/-- The ambient machine state the pipeline interacts with, for a single
request: filesystem probes, DNS, the `which`/version probes, the cache file
for the request's key, the JSON parser outcome, and the child process. -/
structure Env where
  /-- `os.homedir()`. -/
  homedir : String
  /-- `os.tmpdir()`. -/
  tmpdir : String
  /-- `Date.now()` at temp-file naming time. -/
  now : Nat
  /-- Whether `fs.access(p, X_OK)` succeeds for path `p`. -/
  accessX : String → Bool
  /-- `stdout` of `which lighthouse` when that command succeeds. -/
  whichOut : Option String
  /-- Whether `lighthouse --version` succeeds. -/
  versionOk : Bool
  /-- Whether `dns.resolve(host)` succeeds. -/
  dnsResolves : String → Bool
  /-- Content of the cache file for this request's key; `none` models a
  missing or unreadable file. -/
  cacheFile : Option String
  /-- `JSON.parse` against the report shape; `none` models a parse throw. -/
  jsonParse : String → Option Report
  /-- Outcome of the Lighthouse child process (`.error` carries
  `error.message` of a non-zero exit, timeout, or spawn failure). -/
  execResult : Except String Unit
  /-- Content of the temp report file after a successful run; `none` models
  an unreadable artifact. -/
  artifactFile : Option String
  /-- `error.message` when reading the artifact fails. -/
  artifactReadErrMsg : String
  /-- `error.message` when `JSON.parse` of the artifact throws. -/
  jsonParseErrMsg : String

/-- Observable side effects, in the order the pipeline performs them. -/
inductive Event where
  | dnsQuery (host : String)
  | mkdirOut (dir : String)
  | cacheRead (path : String)
  | accessCheck (path : String)
  | whichQuery
  | versionProbe
  | execProc (cmd : String)
  | artifactRead (path : String)
  | cacheWrite (path : String) (content : String)
  | tempUnlink (path : String)
  deriving DecidableEq, Repr

/-- The fixed candidate installation paths probed by `findLighthousePath`. -/
def potentialPaths (homedir : String) : List String :=
  ["/opt/homebrew/bin/lighthouse",
   "/usr/local/bin/lighthouse",
   "/usr/bin/lighthouse",
   homedir ++ "/.npm-global/bin/lighthouse",
   "/opt/homebrew/lib/node_modules/lighthouse/cli/index.js",
   "/usr/local/lib/node_modules/lighthouse/cli/index.js"]

/-- Probe a list of candidate paths in order; first accessible one wins. -/
def probePaths (env : Env) : List String → Option String × List Event
  | [] => (none, [])
  | p :: ps =>
    if env.accessX p then (some p, [.accessCheck p])
    else
      let r := probePaths env ps
      (r.1, .accessCheck p :: r.2)

/-- Last locator strategy: the bare `lighthouse --version` probe, returning
the bare command name on success. -/
def versionFallback (env : Env) : Option String × List Event :=
  if env.versionOk then (some "lighthouse", [.versionProbe])
  else (none, [.versionProbe])

/-- Third locator strategy: `which lighthouse`; a nonempty trimmed stdout is
checked for execute permission, any failure falls through to the version
probe. -/
def whichFallback (env : Env) : Option String × List Event :=
  match env.whichOut with
  | some out =>
    let p := jsTrim out
    if p = "" then ((versionFallback env).1, .whichQuery :: (versionFallback env).2)
    else if env.accessX p then (some p, [.whichQuery, .accessCheck p])
    else ((versionFallback env).1,
      .whichQuery :: .accessCheck p :: (versionFallback env).2)
  | none => ((versionFallback env).1, .whichQuery :: (versionFallback env).2)

/-- Second locator strategy: the fixed candidate list, first accessible path
wins; otherwise fall through to `which`. -/
def pathsFallback (env : Env) : Option String × List Event :=
  match probePaths env (potentialPaths env.homedir) with
  | (some p, evs) => (some p, evs)
  | (none, evs) => ((whichFallback env).1, evs ++ (whichFallback env).2)

/-- `findLighthousePath` from `lighthouse.ts`, with its probe trace: explicit
override (home-expanded) first, then the fixed candidate list, then
`which lighthouse`, then a bare `lighthouse --version` probe. -/
def findLighthousePath (env : Env) (customPath : Option String) :
    Option String × List Event :=
  match customPath with
  | some cp =>
    let ep := expandHomeDir env.homedir cp
    if env.accessX ep then (some ep, [.accessCheck ep])
    else ((pathsFallback env).1, .accessCheck ep :: (pathsFallback env).2)
  | none => pathsFallback env

/-! ### The orchestration: `runLighthouseAudit` -/

/-- The options record, `Option` fields standing for omissible properties. -/
structure LighthouseOptions where
  url : String
  outputPath : Option String := none
  lighthousePath : Option String := none
  device : Option String := none
  categories : Option (List String) := none
  force : Option Bool := none

/-- Default category list destructured in `runLighthouseAudit`. -/
def defaultCategories : List String :=
  ["performance", "accessibility", "best-practices", "seo"]

/-- Successful outcome of `runLighthouseAudit`. -/
structure RunSuccess where
  reportPath : String
  report : Report
  fromCache : Bool
  deriving DecidableEq, Repr

deriving instance DecidableEq for Except

/-- The `Invalid URL format` error text. -/
def invalidUrlMsg : String := "Invalid URL format"

/-- The DNS-failure error text. -/
def resolveFailMsg : String :=
  "No se pudo resolver el dominio. Verifica que la URL exista y sea correcta."

/-- The install remedy named in the tool-not-found error. -/
def installRemedy : String := "npm install -g lighthouse"

/-- The tool-not-found error text. -/
def notFoundMsg : String :=
  "Lighthouse CLI not found. Please install it globally: npm install -g lighthouse"

/-- Wrapper prepended to every failure inside the execution `try` block. -/
def execFailWrap (diag : String) : String := "Lighthouse execution failed: " ++ diag

/-- Wrap a string in double quotes, as the command builder does. -/
def dq (s : String) : String := "\"" ++ s ++ "\""

/-- The Lighthouse command line assembled by `runLighthouseAudit`. -/
def buildCommand (lhPath formattedUrl tempReportPath : String)
    (categories : List String) (device : String) : String :=
  let cmd := [dq lhPath, dq formattedUrl, "--output=json",
    "--output-path=" ++ dq tempReportPath,
    "--only-categories=" ++ String.intercalate "," categories,
    "--quiet", "--disable-full-page-screenshot", "--throttling-method=devtools",
    "--chrome-flags=\"--headless --no-sandbox --disable-gpu --disable-web-security\""]
  let cmd := if device = "desktop" then cmd ++ ["--preset=desktop"] else cmd
  String.intercalate " " cmd

/-- The cache-miss tail of the pipeline: locate the binary, execute it, read
and parse the artifact, store it in the cache.  `evs` is the trace so far. -/
def runFresh (env : Env) (outputDir formattedUrl device : String)
    (categories : List String) (lighthousePath : Option String)
    (cachePath : String) (evs : List Event) :
    Except String RunSuccess × List Event :=
  let loc := findLighthousePath env lighthousePath
  match loc.1 with
  | none => (.error notFoundMsg, evs ++ loc.2)
  | some lhPath =>
    let tempReportPath :=
      nodePathJoin outputDir ("lighthouse-report-" ++ toString env.now ++ ".json")
    let cmd := buildCommand lhPath formattedUrl tempReportPath categories device
    match env.execResult with
    | .error msg => (.error (execFailWrap msg), evs ++ loc.2 ++ [.execProc cmd])
    | .ok _ =>
      match env.artifactFile with
      | none =>
        (.error (execFailWrap env.artifactReadErrMsg),
         evs ++ loc.2 ++ [.execProc cmd, .artifactRead tempReportPath])
      | some content =>
        match env.jsonParse content with
        | none =>
          (.error (execFailWrap env.jsonParseErrMsg),
           evs ++ loc.2 ++ [.execProc cmd, .artifactRead tempReportPath])
        | some report =>
          (.ok ⟨cachePath, report, false⟩,
           evs ++ loc.2 ++
             [.execProc cmd, .artifactRead tempReportPath,
              .cacheWrite cachePath content, .tempUnlink tempReportPath])

/-- `runLighthouseAudit` from `lighthouse.ts`: defaulting, URL normalization
and validation, DNS preflight, output directory, cache key and lookup, then
the fresh-run tail.  Returns the result together with the effect trace. -/
def runLighthouseAudit (env : Env) (o : LighthouseOptions) :
    Except String RunSuccess × List Event :=
  let device := o.device.getD "mobile"
  let categories := o.categories.getD defaultCategories
  let force := o.force.getD false
  let formattedUrl := processUrl o.url
  if isValidUrl formattedUrl then
    let hostname := urlHostname formattedUrl
    if hostname = "" then (.error resolveFailMsg, [])
    else if env.dnsResolves hostname then
      let outputDir := expandHomeDir env.homedir (o.outputPath.getD env.tmpdir)
      let cacheKey := generateCacheKey formattedUrl device categories
      let cachePath :=
        nodePathJoin outputDir ("lighthouse-cache-" ++ cacheKey ++ ".json")
      let evs := [Event.dnsQuery hostname, Event.mkdirOut outputDir]
      -- `Array.prototype.sort` inside `generateCacheKey` mutates the shared
      -- `categories` array, so every later use joins the sorted list.
      if force then
        runFresh env outputDir formattedUrl device (jsSort categories)
          o.lighthousePath cachePath evs
      else
        match env.cacheFile.bind env.jsonParse with
        | some report =>
          (.ok ⟨cachePath, report, true⟩, evs ++ [.cacheRead cachePath])
        | none =>
          runFresh env outputDir formattedUrl device (jsSort categories)
            o.lighthousePath cachePath (evs ++ [.cacheRead cachePath])
    else (.error resolveFailMsg, [.dnsQuery (urlHostname formattedUrl)])
  else (.error invalidUrlMsg, [])

/-! ## Lemmas about trimming and URL normalization (claim C4) -/

theorem dropWhile_head_not {α : Type} (p : α → Bool) (l : List α) (a : α)
    (h : (l.dropWhile p).head? = some a) : p a = false := by
  induction l with
  | nil => simp [List.dropWhile] at h
  | cons c t ih =>
    rw [List.dropWhile_cons] at h
    by_cases hc : p c = true
    · exact ih (by simpa [hc] using h)
    · have hac : c = a := by simpa [hc] using h
      subst hac
      simpa using hc

theorem dropWhile_self_of_head {α : Type} (p : α → Bool) (l : List α)
    (h : ∀ a, l.head? = some a → p a = false) : l.dropWhile p = l := by
  cases l with
  | nil => rfl
  | cons c t => rw [List.dropWhile_cons, h c rfl]; simp

theorem dropWhile_isSuffix {α : Type} (p : α → Bool) (l : List α) :
    ∃ t, t ++ l.dropWhile p = l := by
  induction l with
  | nil => exact ⟨[], rfl⟩
  | cons c t ih =>
    rw [List.dropWhile_cons]
    by_cases hc : p c = true
    · obtain ⟨s, hs⟩ := ih
      exact ⟨c :: s, by simp [hc, hs]⟩
    · exact ⟨[], by simp [hc]⟩

theorem trimList_reverse_head (l : List Char) (a : Char)
    (h : (trimList l).reverse.head? = some a) : isJsWs a = false := by
  have hrw : (trimList l).reverse = (l.dropWhile isJsWs).reverse.dropWhile isJsWs := by
    simp [trimList]
  rw [hrw] at h
  exact dropWhile_head_not _ _ _ h

theorem trimList_head_not_ws (l : List Char) (a : Char)
    (h : (trimList l).head? = some a) : isJsWs a = false := by
  obtain ⟨t, ht⟩ := dropWhile_isSuffix isJsWs (l.dropWhile isJsWs).reverse
  have hx : trimList l ++ t.reverse = l.dropWhile isJsWs := by
    have h2 := congrArg List.reverse ht
    simpa [trimList, List.reverse_append] using h2
  have hh : (l.dropWhile isJsWs).head? = some a := by
    rw [← hx]
    cases hcase : trimList l with
    | nil => rw [hcase] at h; simp at h
    | cons b bs =>
      rw [hcase] at h
      simpa using h
  exact dropWhile_head_not _ _ _ hh

theorem trimList_eq_self (l : List Char)
    (h1 : ∀ a, l.head? = some a → isJsWs a = false)
    (h2 : ∀ a, l.reverse.head? = some a → isJsWs a = false) : trimList l = l := by
  show ((l.dropWhile isJsWs).reverse.dropWhile isJsWs).reverse = l
  rw [dropWhile_self_of_head _ _ h1, dropWhile_self_of_head _ _ h2,
    List.reverse_reverse]

theorem trimList_trimList (l : List Char) : trimList (trimList l) = trimList l :=
  trimList_eq_self _ (trimList_head_not_ws l) (trimList_reverse_head l)

theorem stripWwwL_trim_reverse_head (l : List Char) (a : Char)
    (h : (stripWwwL (trimList l)).reverse.head? = some a) : isJsWs a = false := by
  unfold stripWwwL at h
  split at h
  · have hsplit : (trimList l).take 4 ++ (trimList l).drop 4 = trimList l :=
      List.take_append_drop 4 _
    have hrev : (trimList l).reverse =
        ((trimList l).drop 4).reverse ++ ((trimList l).take 4).reverse := by
      conv_lhs => rw [← hsplit]
      rw [List.reverse_append]
    have hh : (trimList l).reverse.head? = some a := by
      rw [hrev]
      cases hd : ((trimList l).drop 4).reverse with
      | nil => rw [hd] at h; simp at h
      | cons b bs =>
        rw [hd] at h
        simpa using h
    exact trimList_reverse_head l a hh
  · exact trimList_reverse_head l a h

theorem isPrefixB_append_self (l x : List Char) : isPrefixB l (l ++ x) = true := by
  induction l with
  | nil => rfl
  | cons c t ih => simp [isPrefixB, ih]

theorem map_lower_httpsChars : httpsChars.map asciiLowerChar = httpsChars := by decide

theorem processUrlL_trimmed (l : List Char) :
    trimList (processUrlL l) = processUrlL l := by
  unfold processUrlL
  by_cases h : hasHttpSchemeL (trimList l) = true
  · simp only [h, if_true]
    exact trimList_trimList l
  · simp only [h, if_false, Bool.false_eq_true]
    apply trimList_eq_self
    · intro a ha
      have hha : 'h' = a := by simpa [httpsChars] using ha
      subst hha
      decide
    · intro a ha
      rw [List.reverse_append] at ha
      cases hd : (stripWwwL (trimList l)).reverse with
      | nil =>
        rw [hd] at ha
        have hsl : '/' = a := by simpa [httpsChars] using ha
        subst hsl
        decide
      | cons b bs =>
        rw [hd] at ha
        have hb : b = a := by simpa using ha
        apply stripWwwL_trim_reverse_head l a
        rw [hd]
        simpa using hb

theorem processUrlL_hasScheme (l : List Char) :
    hasHttpSchemeL (processUrlL l) = true := by
  unfold processUrlL
  by_cases h : hasHttpSchemeL (trimList l) = true
  · simp [h]
  · simp only [h, if_false, Bool.false_eq_true]
    unfold hasHttpSchemeL
    rw [List.map_append, map_lower_httpsChars, isPrefixB_append_self]
    simp

theorem processUrlL_idem (l : List Char) :
    processUrlL (processUrlL l) = processUrlL l := by
  conv_lhs => rw [processUrlL]
  rw [processUrlL_trimmed l, processUrlL_hasScheme l]
  simp

/-- C4: URL normalization is idempotent: `processUrl (processUrl x) =
processUrl x` for every input string `x`. -/
theorem processUrl_idempotent (x : String) :
    processUrl (processUrl x) = processUrl x := by
  show (⟨processUrlL (processUrlL x.data)⟩ : String) = ⟨processUrlL x.data⟩
  rw [processUrlL_idem]

/-! ## Lemmas about the cache key (claim C2)

The JS default sort comparator on strings is a linear order; two permuted
category lists therefore sort to the same list, and the serialized key data
coincide. -/

theorem unitsLe_total (u v : List Nat) : unitsLe u v = true ∨ unitsLe v u = true := by
  induction u generalizing v with
  | nil => left; rfl
  | cons a as ih =>
    cases v with
    | nil => right; rfl
    | cons b bs =>
      rcases Nat.lt_trichotomy a b with h | h | h
      · left; simp [unitsLe, h]
      · subst h
        rcases ih bs with h2 | h2
        · left; simp [unitsLe, h2]
        · right; simp [unitsLe, h2]
      · right; simp [unitsLe, h]

theorem unitsLe_trans (u v w : List Nat) (h1 : unitsLe u v = true)
    (h2 : unitsLe v w = true) : unitsLe u w = true := by
  induction u generalizing v w with
  | nil => rfl
  | cons a as ih =>
    cases v with
    | nil => simp [unitsLe] at h1
    | cons b bs =>
      cases w with
      | nil => simp [unitsLe] at h2
      | cons c cs =>
        simp only [unitsLe] at h1 h2 ⊢
        rcases Nat.lt_trichotomy a b with hab | hab | hab
        · rcases Nat.lt_trichotomy b c with hbc | hbc | hbc
          · simp [Nat.lt_trans hab hbc]
          · subst hbc; simp [hab]
          · rw [if_neg (by omega), if_pos hbc] at h2
            exact absurd h2 (by simp)
        · subst hab
          rw [if_neg (Nat.lt_irrefl a), if_neg (Nat.lt_irrefl a)] at h1
          rcases Nat.lt_trichotomy a c with hac | hac | hac
          · simp [hac]
          · subst hac
            rw [if_neg (Nat.lt_irrefl a), if_neg (Nat.lt_irrefl a)] at h2 ⊢
            exact ih bs cs h1 h2
          · rw [if_neg (by omega), if_pos hac] at h2
            exact absurd h2 (by simp)
        · rw [if_neg (by omega), if_pos hab] at h1
          exact absurd h1 (by simp)

theorem unitsLe_antisymm (u v : List Nat) (h1 : unitsLe u v = true)
    (h2 : unitsLe v u = true) : u = v := by
  induction u generalizing v with
  | nil =>
    cases v with
    | nil => rfl
    | cons b bs => simp [unitsLe] at h2
  | cons a as ih =>
    cases v with
    | nil => simp [unitsLe] at h1
    | cons b bs =>
      simp only [unitsLe] at h1 h2
      rcases Nat.lt_trichotomy a b with hab | hab | hab
      · rw [if_neg (by omega), if_pos hab] at h2
        exact absurd h2 (by simp)
      · subst hab
        rw [if_neg (Nat.lt_irrefl a), if_neg (Nat.lt_irrefl a)] at h1 h2
        rw [ih bs h1 h2]
      · rw [if_neg (by omega), if_pos hab] at h1
        exact absurd h1 (by simp)

theorem char_toNat_lt (c : Char) : c.toNat < 1114112 := by
  rcases c.valid with h | ⟨_, h2⟩
  · exact Nat.lt_trans h (by norm_num)
  · exact h2

theorem char_not_surrogate (c : Char) :
    c.toNat < 55296 ∨ 57343 < c.toNat := by
  rcases c.valid with h | ⟨h1, _⟩
  · exact Or.inl h
  · exact Or.inr h1

theorem char_toNat_inj {c1 c2 : Char} (h : c1.toNat = c2.toNat) : c1 = c2 := by
  have h1 := Char.ofNat_toNat c1
  have h2 := Char.ofNat_toNat c2
  rw [← h1, ← h2, h]

theorem utf16Units_ne_nil (c : Char) : utf16Units c ≠ [] := by
  unfold utf16Units
  by_cases h : c.toNat < 65536 <;> simp [h]

theorem utf16_flatMap_injective : ∀ (l1 l2 : List Char),
    l1.flatMap utf16Units = l2.flatMap utf16Units → l1 = l2 := by
  intro l1
  induction l1 with
  | nil =>
    intro l2 h
    cases l2 with
    | nil => rfl
    | cons c t =>
      rw [List.flatMap_nil, List.flatMap_cons] at h
      exact absurd h.symm (by simp [utf16Units_ne_nil c])
  | cons c1 t1 ih =>
    intro l2 h
    cases l2 with
    | nil =>
      rw [List.flatMap_nil, List.flatMap_cons] at h
      exact absurd h (by simp [utf16Units_ne_nil c1])
    | cons c2 t2 =>
      rw [List.flatMap_cons, List.flatMap_cons] at h
      have hb1 := char_toNat_lt c1
      have hb2 := char_toNat_lt c2
      have hs1 := char_not_surrogate c1
      have hs2 := char_not_surrogate c2
      by_cases h1 : c1.toNat < 65536 <;> by_cases h2 : c2.toNat < 65536 <;>
        simp only [utf16Units, h1, h2, if_true, if_false, if_pos, if_neg,
          not_false_iff] at h
      · rw [List.cons_append, List.cons_append] at h
        have hd := List.head_eq_of_cons_eq h
        have ht := List.tail_eq_of_cons_eq h
        rw [char_toNat_inj hd, ih t2 ht]
      · rw [List.cons_append, List.cons_append] at h
        have hd := List.head_eq_of_cons_eq h
        have hq : (c2.toNat - 65536) / 1024 < 1024 :=
          Nat.div_lt_of_lt_mul (by omega)
        omega
      · rw [List.cons_append, List.cons_append] at h
        have hd := List.head_eq_of_cons_eq h
        have hq : (c1.toNat - 65536) / 1024 < 1024 :=
          Nat.div_lt_of_lt_mul (by omega)
        omega
      · rw [List.cons_append, List.cons_append, List.cons_append, List.cons_append]
          at h
        have hd1 := List.head_eq_of_cons_eq h
        have hrest := List.tail_eq_of_cons_eq h
        have hd2 := List.head_eq_of_cons_eq hrest
        have ht := List.tail_eq_of_cons_eq hrest
        have e1 := Nat.div_add_mod (c1.toNat - 65536) 1024
        have e2 := Nat.div_add_mod (c2.toNat - 65536) 1024
        have hn : c1.toNat = c2.toNat := by omega
        rw [char_toNat_inj hn, ih t2 ht]

theorem strUnits_injective {a b : String} (h : strUnits a = strUnits b) : a = b := by
  have hd := utf16_flatMap_injective a.data b.data h
  cases a
  cases b
  exact congrArg String.mk hd

instance : IsTotal String jsLe := ⟨fun a b => unitsLe_total _ _⟩

instance : IsTrans String jsLe := ⟨fun _ _ _ => unitsLe_trans _ _ _⟩

instance : IsAntisymm String jsLe :=
  ⟨fun _ _ h1 h2 => strUnits_injective (unitsLe_antisymm _ _ h1 h2)⟩

theorem jsSort_perm_eq {c1 c2 : List String} (h : c1.Perm c2) :
    jsSort c1 = jsSort c2 :=
  List.eq_of_perm_of_sorted
    ((List.perm_insertionSort jsLe c1).trans
      (h.trans (List.perm_insertionSort jsLe c2).symm))
    (List.sorted_insertionSort jsLe c1) (List.sorted_insertionSort jsLe c2)

set_option maxRecDepth 1000000 in
/-- C2 counterexample: two requests whose category sets agree up to casing
(`["seo"]` vs `["SEO"]`) and agree on URL and device nevertheless hash to
different cache keys — the key computation is case-sensitive in the category
identifiers, so the claim as stated fails. -/
theorem generateCacheKey_casing_counterexample :
    generateCacheKey "https://example.com" "mobile" ["seo"] ≠
      generateCacheKey "https://example.com" "mobile" ["SEO"] := by
  decide

/-- C2 (amended): for two requests with the same normalized URL (regardless
of superficial URL formatting of the raw input), the same device, and
category lists that are permutations of one another (case-sensitively),
the computed cache keys are equal. -/
theorem generateCacheKey_deterministic (u1 u2 d : String) (c1 c2 : List String)
    (hu : processUrl u1 = processUrl u2) (hc : c1.Perm c2) :
    generateCacheKey (processUrl u1) d c1 = generateCacheKey (processUrl u2) d c2 := by
  unfold generateCacheKey serializeKeyData
  rw [hu, jsSort_perm_eq hc]

/-- Witness for `generateCacheKey_deterministic`: scheme omission plus a
`www.` prefix on one side, and swapped category order, give equal keys. -/
theorem generateCacheKey_deterministic_witness :
    generateCacheKey (processUrl "www.example.com") "mobile"
        ["seo", "performance"] =
      generateCacheKey (processUrl "https://example.com") "mobile"
        ["performance", "seo"] :=
  generateCacheKey_deterministic "www.example.com" "https://example.com" "mobile"
    ["seo", "performance"] ["performance", "seo"] (by decide) (by decide)

/-! ## Lemmas about the executable locator -/

/-- Events the locator may emit. -/
def isLocateEvent : Event → Bool
  | .accessCheck _ => true
  | .whichQuery => true
  | .versionProbe => true
  | _ => false

theorem probePaths_locate_events (env : Env) (ps : List String) :
    ∀ e ∈ (probePaths env ps).2, isLocateEvent e = true := by
  induction ps with
  | nil => intro e he; simp [probePaths] at he
  | cons p ps ih =>
    intro e he
    by_cases hp : env.accessX p = true
    · simp [probePaths, hp] at he
      simp [he, isLocateEvent]
    · simp [probePaths, hp] at he
      rcases he with he | he
      · simp [he, isLocateEvent]
      · exact ih e he

theorem versionFallback_locate_events (env : Env) :
    ∀ e ∈ (versionFallback env).2, isLocateEvent e = true := by
  intro e he
  unfold versionFallback at he
  by_cases h : env.versionOk = true <;> simp [h] at he <;> simp [he, isLocateEvent]

theorem whichFallback_locate_events (env : Env) :
    ∀ e ∈ (whichFallback env).2, isLocateEvent e = true := by
  intro e he
  unfold whichFallback at he
  cases hw : env.whichOut with
  | none =>
    rw [hw] at he
    simp at he
    rcases he with he | he
    · simp [he, isLocateEvent]
    · exact versionFallback_locate_events env e he
  | some out =>
    rw [hw] at he
    by_cases h0 : jsTrim out = ""
    · simp [h0] at he
      rcases he with he | he
      · simp [he, isLocateEvent]
      · exact versionFallback_locate_events env e he
    · by_cases ha : env.accessX (jsTrim out) = true
      · simp [h0, ha] at he
        rcases he with he | he <;> simp [he, isLocateEvent]
      · simp [h0, ha] at he
        rcases he with he | he | he
        · simp [he, isLocateEvent]
        · simp [he, isLocateEvent]
        · exact versionFallback_locate_events env e he

theorem pathsFallback_locate_events (env : Env) :
    ∀ e ∈ (pathsFallback env).2, isLocateEvent e = true := by
  intro e he
  unfold pathsFallback at he
  cases hp : probePaths env (potentialPaths env.homedir) with
  | mk r evs =>
    cases r with
    | some p =>
      rw [hp] at he
      simp at he
      have := probePaths_locate_events env (potentialPaths env.homedir)
      rw [hp] at this
      exact this e (by simp [he])
    | none =>
      rw [hp] at he
      simp at he
      rcases he with he | he
      · have := probePaths_locate_events env (potentialPaths env.homedir)
        rw [hp] at this
        exact this e (by simp [he])
      · exact whichFallback_locate_events env e he

theorem findLighthousePath_locate_events (env : Env) (cp : Option String) :
    ∀ e ∈ (findLighthousePath env cp).2, isLocateEvent e = true := by
  intro e he
  unfold findLighthousePath at he
  cases cp with
  | none => exact pathsFallback_locate_events env e he
  | some c =>
    by_cases ha : env.accessX (expandHomeDir env.homedir c) = true
    · simp [ha] at he
      simp [he, isLocateEvent]
    · simp [ha] at he
      rcases he with he | he
      · simp [he, isLocateEvent]
      · exact pathsFallback_locate_events env e he

/-! ### The locator's priority cascade (claim C8) -/

theorem probePaths_fst (env : Env) (ps : List String) :
    (probePaths env ps).1 = ps.find? env.accessX := by
  induction ps with
  | nil => rfl
  | cons p ps ih =>
    by_cases hp : env.accessX p = true <;>
      simp [probePaths, List.find?, hp, ih]

/-- The override strategy in isolation. -/
def overrideHit (env : Env) (cp : Option String) : Option String :=
  match cp with
  | some p =>
    if env.accessX (expandHomeDir env.homedir p) then
      some (expandHomeDir env.homedir p)
    else none
  | none => none

/-- The fixed-list strategy in isolation. -/
def firstFixedPath (env : Env) : Option String :=
  (potentialPaths env.homedir).find? env.accessX

/-- The search-path strategy in isolation: usable iff `which` succeeded with
a nonempty trimmed stdout naming an executable path. -/
def whichUsable (env : Env) : Option String :=
  match env.whichOut with
  | some out =>
    if jsTrim out ≠ "" ∧ env.accessX (jsTrim out) = true then some (jsTrim out)
    else none
  | none => none

/-- The version-probe strategy in isolation. -/
def versionProbeResult (env : Env) : Option String :=
  if env.versionOk then some "lighthouse" else none

theorem versionFallback_fst (env : Env) :
    (versionFallback env).1 = versionProbeResult env := by
  unfold versionFallback versionProbeResult
  by_cases h : env.versionOk = true <;> simp [h]

theorem whichFallback_fst (env : Env) :
    (whichFallback env).1 =
      (whichUsable env).orElse fun _ => versionProbeResult env := by
  unfold whichFallback whichUsable
  cases hw : env.whichOut with
  | none => simp [versionFallback_fst, Option.orElse]
  | some out =>
    by_cases h0 : jsTrim out = ""
    · simp [h0, versionFallback_fst, Option.orElse]
    · by_cases ha : env.accessX (jsTrim out) = true
      · simp [h0, ha, Option.orElse]
      · simp [h0, ha, versionFallback_fst, Option.orElse]

theorem pathsFallback_fst (env : Env) :
    (pathsFallback env).1 =
      (firstFixedPath env).orElse fun _ =>
        (whichUsable env).orElse fun _ => versionProbeResult env := by
  unfold pathsFallback firstFixedPath
  cases hp : probePaths env (potentialPaths env.homedir) with
  | mk r evs =>
    have hf := probePaths_fst env (potentialPaths env.homedir)
    rw [hp] at hf
    cases r with
    | some p => simp [← hf, Option.orElse]
    | none => simp [← hf, whichFallback_fst, Option.orElse]

theorem findLighthousePath_fst (env : Env) (cp : Option String) :
    (findLighthousePath env cp).1 =
      (overrideHit env cp).orElse fun _ =>
        (firstFixedPath env).orElse fun _ =>
          (whichUsable env).orElse fun _ => versionProbeResult env := by
  unfold findLighthousePath overrideHit
  cases cp with
  | none => simp [pathsFallback_fst, Option.orElse]
  | some c =>
    by_cases ha : env.accessX (expandHomeDir env.homedir c) = true <;>
      simp [ha, pathsFallback_fst, Option.orElse]

/-! ### Statement helpers naming the paths and command a run uses -/

/-- The output directory `runLighthouseAudit` uses. -/
def outputDirOf (env : Env) (o : LighthouseOptions) : String :=
  expandHomeDir env.homedir (o.outputPath.getD env.tmpdir)

/-- The cache file path `runLighthouseAudit` uses. -/
def cachePathOf (env : Env) (o : LighthouseOptions) : String :=
  nodePathJoin (outputDirOf env o)
    ("lighthouse-cache-" ++
      generateCacheKey (processUrl o.url) (o.device.getD "mobile")
        (o.categories.getD defaultCategories) ++ ".json")

/-- The temporary artifact path `runLighthouseAudit` uses. -/
def tempPathOf (env : Env) (o : LighthouseOptions) : String :=
  nodePathJoin (outputDirOf env o)
    ("lighthouse-report-" ++ toString env.now ++ ".json")

/-- The command line `runLighthouseAudit` executes, given the located binary
(the category list joined there is the sorted one, since the key computation
sorted the shared array in place). -/
def commandOf (env : Env) (o : LighthouseOptions) (lhPath : String) : String :=
  buildCommand lhPath (processUrl o.url) (tempPathOf env o)
    (jsSort (o.categories.getD defaultCategories)) (o.device.getD "mobile")

theorem runFresh_fst_indep (env : Env) (od fu dv : String) (cats : List String)
    (lp : Option String) (cp : String) (evs evs2 : List Event) :
    (runFresh env od fu dv cats lp cp evs).1 =
      (runFresh env od fu dv cats lp cp evs2).1 := by
  unfold runFresh
  cases hl : (findLighthousePath env lp).1 with
  | none => simp [hl]
  | some p =>
    cases he : env.execResult with
    | error m => simp [hl, he]
    | ok u =>
      cases ha : env.artifactFile with
      | none => simp [hl, he, ha]
      | some content =>
        cases hp : env.jsonParse content with
        | none => simp [hl, he, ha, hp]
        | some r => simp [hl, he, ha, hp]

/-! ## Concrete environments and options used by witnesses -/

/-- Baseline concrete environment: DNS resolves, the binary is at
`/usr/bin/lighthouse`, the child process succeeds and produces the artifact
text `{}`, the cache is empty, and `JSON.parse` fails exactly on the text
`garbage` (throwing with message `boom`). -/
def envBase : Env :=
  { homedir := "/home/u", tmpdir := "/tmp", now := 7,
    accessX := fun p => p = "/usr/bin/lighthouse",
    whichOut := none, versionOk := false,
    dnsResolves := fun _ => true,
    cacheFile := none,
    jsonParse := fun s => if s = "garbage" then none else some s,
    execResult := .ok (),
    artifactFile := some "\x7b\x7d",
    artifactReadErrMsg := "ENOENT: no such file or directory",
    jsonParseErrMsg := "boom" }

/-- Environment with a valid cache entry for the request's key. -/
def envHit : Env := { envBase with cacheFile := some "\x7b\x7d" }

/-- Environment with a corrupt (unparseable) cache entry. -/
def envCorrupt : Env := { envBase with cacheFile := some "garbage" }

/-- Environment whose child process fails with diagnostic `boom`. -/
def envExecFail : Env := { envBase with execResult := .error "boom" }

/-- Environment where the tool runs but the artifact does not parse. -/
def envParseFail : Env := { envBase with artifactFile := some "garbage" }

/-- Environment in which every locator strategy fails. -/
def envAllFail : Env := { envBase with accessX := fun _ => false }

/-- A plain request. -/
def oUrl : LighthouseOptions := { url := "example.com" }

/-- A forced request. -/
def oForce : LighthouseOptions := { url := "example.com", force := some true }

/-! ## Claim theorems about the orchestration -/

set_option maxRecDepth 1000000 in
/-- C1 counterexample: this concrete request hits the cache (the result is
served with `fromCache = true`), yet its trace begins with a DNS query
issued before the cache read — a cache hit does trigger a DNS resolution,
and cache lookup does not happen before all network activity. -/
theorem cacheHit_performs_dns :
    runLighthouseAudit envHit oUrl =
      (.ok ⟨"/tmp/lighthouse-cache-ac1ef25f0f3a2d573b7af12b868eccda.json",
          "\x7b\x7d", true⟩,
       [Event.dnsQuery "example.com", Event.mkdirOut "/tmp",
        Event.cacheRead
          "/tmp/lighthouse-cache-ac1ef25f0f3a2d573b7af12b868eccda.json"]) := by
  decide

/-- C1 (amended): on a cache hit (`force = false`, readable and parseable
entry) the pipeline performs no executable search and no child-process
invocation and returns the stored report with `fromCache = true`; however
the DNS resolution and the output-directory creation precede the cache
lookup, so even a hit triggers exactly one DNS query. -/
theorem cacheHit_no_search_no_exec (env : Env) (o : LighthouseOptions) (r : Report)
    (hv : isValidUrl (processUrl o.url) = true)
    (hh : urlHostname (processUrl o.url) ≠ "")
    (hd : env.dnsResolves (urlHostname (processUrl o.url)) = true)
    (hf : o.force.getD false = false)
    (hr : env.cacheFile.bind env.jsonParse = some r) :
    runLighthouseAudit env o =
      (.ok ⟨cachePathOf env o, r, true⟩,
       [Event.dnsQuery (urlHostname (processUrl o.url)),
        Event.mkdirOut (outputDirOf env o),
        Event.cacheRead (cachePathOf env o)]) := by
  simp [runLighthouseAudit, cachePathOf, outputDirOf, hv, hh, hd, hf, hr]

/-- Witness for `cacheHit_no_search_no_exec` at a concrete hit. -/
theorem cacheHit_no_search_no_exec_witness :
    runLighthouseAudit envHit { url := "www.example.com" } =
      (.ok ⟨cachePathOf envHit { url := "www.example.com" }, "\x7b\x7d", true⟩,
       [Event.dnsQuery (urlHostname (processUrl "www.example.com")),
        Event.mkdirOut (outputDirOf envHit { url := "www.example.com" }),
        Event.cacheRead (cachePathOf envHit { url := "www.example.com" })]) :=
  cacheHit_no_search_no_exec envHit { url := "www.example.com" } "\x7b\x7d"
    (by decide) (by decide) (by decide) rfl (by decide)

/-- C3: with `force = true` the pipeline never reads the cache even when an
entry exists: it performs the DNS preflight, the executable search, and the
child-process run, and on success writes the report to the cache path,
overwriting the prior entry. -/
theorem forced_run_overwrites_cache (env : Env) (o : LighthouseOptions)
    (entry p content : String) (levs : List Event) (r : Report)
    (hv : isValidUrl (processUrl o.url) = true)
    (hh : urlHostname (processUrl o.url) ≠ "")
    (hd : env.dnsResolves (urlHostname (processUrl o.url)) = true)
    (hf : o.force.getD false = true)
    (_hcache : env.cacheFile = some entry)
    (hloc : findLighthousePath env o.lighthousePath = (some p, levs))
    (he : env.execResult = .ok ())
    (ha : env.artifactFile = some content)
    (hp : env.jsonParse content = some r) :
    runLighthouseAudit env o =
      (.ok ⟨cachePathOf env o, r, false⟩,
       [Event.dnsQuery (urlHostname (processUrl o.url)),
        Event.mkdirOut (outputDirOf env o)] ++ levs ++
        [Event.execProc (commandOf env o p),
         Event.artifactRead (tempPathOf env o),
         Event.cacheWrite (cachePathOf env o) content,
         Event.tempUnlink (tempPathOf env o)]) := by
  simp [runLighthouseAudit, runFresh, cachePathOf, outputDirOf, tempPathOf,
    commandOf, hv, hh, hd, hf, hloc, he, ha, hp]

/-- Witness for `forced_run_overwrites_cache` against a populated cache. -/
theorem forced_run_overwrites_cache_witness :
    runLighthouseAudit envHit oForce =
      (.ok ⟨cachePathOf envHit oForce, "\x7b\x7d", false⟩,
       [Event.dnsQuery (urlHostname (processUrl "example.com")),
        Event.mkdirOut (outputDirOf envHit oForce)] ++
        [Event.accessCheck "/opt/homebrew/bin/lighthouse",
         Event.accessCheck "/usr/local/bin/lighthouse",
         Event.accessCheck "/usr/bin/lighthouse"] ++
        [Event.execProc (commandOf envHit oForce "/usr/bin/lighthouse"),
         Event.artifactRead (tempPathOf envHit oForce),
         Event.cacheWrite (cachePathOf envHit oForce) "\x7b\x7d",
         Event.tempUnlink (tempPathOf envHit oForce)]) :=
  forced_run_overwrites_cache envHit oForce "\x7b\x7d" "/usr/bin/lighthouse"
    "\x7b\x7d"
    [Event.accessCheck "/opt/homebrew/bin/lighthouse",
     Event.accessCheck "/usr/local/bin/lighthouse",
     Event.accessCheck "/usr/bin/lighthouse"] "\x7b\x7d"
    (by decide) (by decide) (by decide) rfl rfl (by decide) rfl rfl rfl

/-- C5: with `force = false` and a missing, unreadable, or unparseable cache
file, the lookup is a miss: the request's result is exactly the result of
the same request with `force = true` (a fresh run), and the lookup failure
is never surfaced as an error. -/
theorem cacheLookupFailure_is_miss (env : Env) (o : LighthouseOptions)
    (hf : o.force.getD false = false)
    (hm : env.cacheFile.bind env.jsonParse = none) :
    (runLighthouseAudit env o).1 =
      (runLighthouseAudit env { o with force := some true }).1 := by
  obtain ⟨u, op, lp, dv, cat, fc⟩ := o
  have hf2 : fc.getD false = false := hf
  by_cases hv : isValidUrl (processUrl u) = true
  · by_cases hh : urlHostname (processUrl u) = ""
    · simp [runLighthouseAudit, hv, hh]
    · by_cases hd : env.dnsResolves (urlHostname (processUrl u)) = true
      · simp only [runLighthouseAudit, hv, hh, hd, hf2, hm, if_true, if_false]
        simp
        exact runFresh_fst_indep env _ _ _ _ _ _ _ _
      · simp [runLighthouseAudit, hv, hh, hd]
  · simp [runLighthouseAudit, hv]

/-- Witness for `cacheLookupFailure_is_miss` on a corrupt cache entry. -/
theorem cacheLookupFailure_is_miss_witness :
    (runLighthouseAudit envCorrupt oUrl).1 =
      (runLighthouseAudit envCorrupt { oUrl with force := some true }).1 :=
  cacheLookupFailure_is_miss envCorrupt oUrl rfl rfl

/-- C6: when the child process fails (non-zero exit, timeout, or spawn
failure — `execPromise` rejects with a diagnostic in all three cases), the
pipeline fails with the single wrapped `Lighthouse execution failed: …`
error carrying that diagnostic, and never writes a cache entry. -/
theorem execFailure_no_cache_write (env : Env) (o : LighthouseOptions)
    (m p : String) (levs : List Event)
    (hv : isValidUrl (processUrl o.url) = true)
    (hh : urlHostname (processUrl o.url) ≠ "")
    (hd : env.dnsResolves (urlHostname (processUrl o.url)) = true)
    (hmiss : o.force.getD false = true ∨ env.cacheFile.bind env.jsonParse = none)
    (hloc : findLighthousePath env o.lighthousePath = (some p, levs))
    (he : env.execResult = .error m) :
    (runLighthouseAudit env o).1 = Except.error (execFailWrap m) ∧
      ∀ pth c, Event.cacheWrite pth c ∉ (runLighthouseAudit env o).2 := by
  have hpure := findLighthousePath_locate_events env o.lighthousePath
  rw [hloc] at hpure
  have hcases : o.force.getD false = true ∨
      (o.force.getD false = false ∧ env.cacheFile.bind env.jsonParse = none) := by
    rcases hmiss with hf | hm
    · exact Or.inl hf
    · by_cases hf : o.force.getD false = true
      · exact Or.inl hf
      · exact Or.inr ⟨by simpa using hf, hm⟩
  rcases hcases with hf | ⟨hf, hm⟩
  · refine ⟨by simp [runLighthouseAudit, runFresh, hv, hh, hd, hf, hloc, he], ?_⟩
    intro pth c hmem
    simp [runLighthouseAudit, runFresh, hv, hh, hd, hf, hloc, he] at hmem
    have hl := hpure _ hmem
    simp [isLocateEvent] at hl
  · refine ⟨by simp [runLighthouseAudit, runFresh, hv, hh, hd, hf, hm, hloc, he], ?_⟩
    intro pth c hmem
    simp [runLighthouseAudit, runFresh, hv, hh, hd, hf, hm, hloc, he] at hmem
    have hl := hpure _ hmem
    simp [isLocateEvent] at hl

/-- Witness for `execFailure_no_cache_write` on a concrete failing run. -/
theorem execFailure_no_cache_write_witness :
    (runLighthouseAudit envExecFail oUrl).1 =
        Except.error (execFailWrap "boom") ∧
      Event.cacheWrite (cachePathOf envExecFail oUrl) "\x7b\x7d" ∉
        (runLighthouseAudit envExecFail oUrl).2 := by
  have h := execFailure_no_cache_write envExecFail oUrl "boom"
    "/usr/bin/lighthouse"
    [Event.accessCheck "/opt/homebrew/bin/lighthouse",
     Event.accessCheck "/usr/local/bin/lighthouse",
     Event.accessCheck "/usr/bin/lighthouse"]
    (by decide) (by decide) rfl (Or.inr rfl) rfl rfl
  exact ⟨h.1, h.2 _ _⟩

/-- C7 counterexample: a run where the tool succeeded but produced an
unparseable artifact yields the very same error value as a run where the
tool itself failed — the parse failure is wrapped into `Lighthouse execution
failed: …` by the single catch, not surfaced as a distinct parse-error kind
a caller could tell apart. -/
theorem parseFailure_not_distinct :
    (runLighthouseAudit envParseFail oUrl).1 =
        Except.error "Lighthouse execution failed: boom" ∧
      (runLighthouseAudit envParseFail oUrl).1 =
        (runLighthouseAudit envExecFail oUrl).1 := by
  constructor <;> rfl

/-- C7 (amended): when the tool runs successfully but the artifact is not
valid JSON, the orchestration's single catch re-throws the parse failure as
the wrapped `Lighthouse execution failed: …` error — indistinguishable in
kind from a tool-execution failure — and no cache entry is written. -/
theorem parseFailure_wrapped_as_execFailure (env : Env) (o : LighthouseOptions)
    (p content : String) (levs : List Event)
    (hv : isValidUrl (processUrl o.url) = true)
    (hh : urlHostname (processUrl o.url) ≠ "")
    (hd : env.dnsResolves (urlHostname (processUrl o.url)) = true)
    (hmiss : o.force.getD false = true ∨ env.cacheFile.bind env.jsonParse = none)
    (hloc : findLighthousePath env o.lighthousePath = (some p, levs))
    (he : env.execResult = .ok ())
    (ha : env.artifactFile = some content)
    (hp : env.jsonParse content = none) :
    (runLighthouseAudit env o).1 =
        Except.error (execFailWrap env.jsonParseErrMsg) ∧
      ∀ pth c, Event.cacheWrite pth c ∉ (runLighthouseAudit env o).2 := by
  have hpure := findLighthousePath_locate_events env o.lighthousePath
  rw [hloc] at hpure
  have hcases : o.force.getD false = true ∨
      (o.force.getD false = false ∧ env.cacheFile.bind env.jsonParse = none) := by
    rcases hmiss with hf | hm
    · exact Or.inl hf
    · by_cases hf : o.force.getD false = true
      · exact Or.inl hf
      · exact Or.inr ⟨by simpa using hf, hm⟩
  rcases hcases with hf | ⟨hf, hm⟩
  · refine ⟨by simp [runLighthouseAudit, runFresh, hv, hh, hd, hf, hloc, he, ha, hp], ?_⟩
    intro pth c hmem
    simp [runLighthouseAudit, runFresh, hv, hh, hd, hf, hloc, he, ha, hp] at hmem
    have hl := hpure _ hmem
    simp [isLocateEvent] at hl
  · refine ⟨by simp [runLighthouseAudit, runFresh, hv, hh, hd, hf, hm, hloc, he, ha, hp], ?_⟩
    intro pth c hmem
    simp [runLighthouseAudit, runFresh, hv, hh, hd, hf, hm, hloc, he, ha, hp] at hmem
    have hl := hpure _ hmem
    simp [isLocateEvent] at hl

/-- Witness for `parseFailure_wrapped_as_execFailure`. -/
theorem parseFailure_wrapped_as_execFailure_witness :
    (runLighthouseAudit envParseFail oUrl).1 =
        Except.error (execFailWrap "boom") ∧
      Event.cacheWrite (cachePathOf envParseFail oUrl) "garbage" ∉
        (runLighthouseAudit envParseFail oUrl).2 := by
  have h := parseFailure_wrapped_as_execFailure envParseFail oUrl
    "/usr/bin/lighthouse" "garbage"
    [Event.accessCheck "/opt/homebrew/bin/lighthouse",
     Event.accessCheck "/usr/local/bin/lighthouse",
     Event.accessCheck "/usr/bin/lighthouse"]
    (by decide) (by decide) rfl (Or.inr rfl) rfl rfl rfl rfl
  exact ⟨h.1, h.2 _ _⟩

/-- C8: the locator's strategies are tried in a fixed priority order —
home-expanded override first, then the fixed candidate path list in order,
then the `which` search-path query, then the bare version probe — it
returns `none` exactly when all four strategies fail, and in that case the
audit fails with the not-found message carrying the exact install remedy. -/
theorem findLighthousePath_strategy_order (env : Env) (cp : Option String) :
    ((findLighthousePath env cp).1 =
      (overrideHit env cp).orElse fun _ =>
        (firstFixedPath env).orElse fun _ =>
          (whichUsable env).orElse fun _ => versionProbeResult env) ∧
    ((findLighthousePath env cp).1 = none ↔
      overrideHit env cp = none ∧ firstFixedPath env = none ∧
        whichUsable env = none ∧ env.versionOk = false) ∧
    notFoundMsg =
      "Lighthouse CLI not found. Please install it globally: " ++ installRemedy ∧
    (∀ o : LighthouseOptions, o.lighthousePath = cp →
      isValidUrl (processUrl o.url) = true →
      urlHostname (processUrl o.url) ≠ "" →
      env.dnsResolves (urlHostname (processUrl o.url)) = true →
      (o.force.getD false = true ∨ env.cacheFile.bind env.jsonParse = none) →
      (findLighthousePath env cp).1 = none →
      (runLighthouseAudit env o).1 = Except.error notFoundMsg) := by
  refine ⟨findLighthousePath_fst env cp, ?_, rfl, ?_⟩
  · rw [findLighthousePath_fst env cp]
    cases ho : overrideHit env cp <;> cases hx : firstFixedPath env <;>
      cases hw : whichUsable env <;> by_cases hb : env.versionOk = true <;>
        simp [Option.orElse, versionProbeResult, hb]
  · intro o ho hv hh hd hmiss hnone
    rw [← ho] at hnone
    rcases hmiss with hf | hm
    · simp [runLighthouseAudit, runFresh, hv, hh, hd, hf, hnone]
    · by_cases hf : o.force.getD false = true
      · simp [runLighthouseAudit, runFresh, hv, hh, hd, hf, hnone]
      · simp [runLighthouseAudit, runFresh, hv, hh, hd, hf, hm, hnone]

/-- Witness for `findLighthousePath_strategy_order`: every strategy fails
and the audit reports the not-found message with the install remedy. -/
theorem findLighthousePath_strategy_order_witness :
    (findLighthousePath envAllFail none).1 = none ∧
      (runLighthouseAudit envAllFail oUrl).1 = Except.error notFoundMsg := by
  have h := findLighthousePath_strategy_order envAllFail none
  have hn : (findLighthousePath envAllFail none).1 = none :=
    h.2.1.mpr ⟨rfl, rfl, rfl, rfl⟩
  exact ⟨hn, h.2.2.2 oUrl rfl (by decide) (by decide) rfl (Or.inr rfl) hn⟩

/-- C9: when the normalized URL fails validation (for example the empty
input, which normalizes to `https://` with no host), the pipeline fails
with the `Invalid URL format` error and the trace is empty — no DNS,
filesystem, or process activity is attempted. -/
theorem invalidUrl_aborts_before_activity (env : Env) (o : LighthouseOptions)
    (h : isValidUrl (processUrl o.url) = false) :
    runLighthouseAudit env o = (Except.error invalidUrlMsg, []) := by
  simp [runLighthouseAudit, h]

/-- Witness for `invalidUrl_aborts_before_activity` at the empty URL. -/
theorem invalidUrl_aborts_before_activity_witness :
    runLighthouseAudit envBase { url := "" } = (Except.error invalidUrlMsg, []) :=
  invalidUrl_aborts_before_activity envBase { url := "" } (by decide)

/-- C10: omitting `device` and `categories` behaves identically to passing
`"mobile"` and the four default categories explicitly — the cache key, the
command line, the result, and the whole trace coincide. -/
theorem omitted_options_use_defaults (env : Env) (o : LighthouseOptions)
    (hdev : o.device = none) (hcat : o.categories = none) :
    runLighthouseAudit env o =
      runLighthouseAudit env
        { o with device := some "mobile",
                 categories := some defaultCategories } := by
  obtain ⟨u, op, lp, dv, cat, fc⟩ := o
  have hdev2 : dv = none := hdev
  have hcat2 : cat = none := hcat
  subst hdev2
  subst hcat2
  rfl

/-- Witness for `omitted_options_use_defaults`. -/
theorem omitted_options_use_defaults_witness :
    runLighthouseAudit envBase oUrl =
      runLighthouseAudit envBase
        { oUrl with device := some "mobile",
                    categories := some defaultCategories } :=
  omitted_options_use_defaults envBase oUrl rfl rfl

end SeoLH
